import Mathlib

set_option autoImplicit false

namespace Render

/-!
Shallow embedding of the scrape-orchestration core of the `render` repository:
the circuit breaker (`pkg/reliability/circuit_breaker.go`), the Pinterest
scrape client's breaker interaction (`pinterest` package), the dHash
perceptual hasher (`pkg/imaging`), the client-history store (`database/db.go`),
the scrape manager (`manager/manager.go` with `query/query.go`), and the
query rotator (`scraper/query_manager.go`).

Go `time.Time` / `time.Duration` values are modelled as natural numbers
(instants on a monotone clock and durations in the same unit);
`time.Since(t)` at instant `now` is `now - t` (Nat subtraction truncates at
zero, which agrees with Go: a negative elapsed duration is never `> timeout`
and never `< hour` behaves the same as zero only where the code compares
against nonnegative bounds, see the call sites). `uint64` arithmetic is
modelled as `Nat` with explicit `% 2 ^ 64` where the code can overflow.
-/

/-! ## Circuit breaker (`pkg/reliability/circuit_breaker.go`) -/

/-- The `state` field of `CircuitBreaker`: the Go strings `"closed"`,
`"open"`, `"half-open"`. (`opened` stands for the Go string `"open"`,
which is a keyword in Lean.) -/
inductive BreakerState where
  | closed
  | opened
  | halfOpen
deriving DecidableEq, Repr

/-- Model of the Go struct `reliability.CircuitBreaker`. The mutex is
dropped: calls are modelled as atomic steps. -/
structure CircuitBreaker where
  failures : Nat
  maxFailures : Nat
  state : BreakerState
  lastFailTime : Nat
  timeout : Nat
deriving DecidableEq, Repr

/-- Model of `reliability.NewCircuitBreaker`: zero-valued `failures` and
`lastFailTime`, state `"closed"`. -/
def NewCircuitBreaker (maxFailures timeout : Nat) : CircuitBreaker :=
  { failures := 0, maxFailures := maxFailures, state := .closed
    lastFailTime := 0, timeout := timeout }

/-- Errors that a function passed to `CircuitBreaker.Call` can return in the
modelled code: `pinterest.ErrQueryExhausted` (the consecutive-timeout end
state of `scrapeWithRetries`) or any driver/browser error. -/
inductive GoError where
  | queryExhausted
  | driverFailure
deriving DecidableEq, Repr

/-- Result of one `CircuitBreaker.Call`: either the breaker was open and
`fn` was never invoked (the Go `fmt.Errorf("circuit breaker is open")`
return), or `fn` was invoked and returned this error / succeeded. -/
inductive CallOutcome where
  | breakerOpen
  | fnError (e : GoError)
  | fnOk
deriving DecidableEq, Repr

/-- Model of `CircuitBreaker.Call` at instant `now`, where `fnResult` is
what `fn()` returns when invoked. Mirrors the Go control flow: an open
breaker fails fast unless `time.Since(lastFailTime) > timeout`, in which
case it moves to half-open with `failures = 0` and invokes `fn`; a
failure increments `failures`, records `lastFailTime`, and opens the
breaker when `failures >= maxFailures`; a success resets to closed. -/
def CircuitBreaker.Call (cb : CircuitBreaker) (now : Nat) (fnResult : Option GoError) :
    CircuitBreaker × CallOutcome :=
  if cb.state = .opened ∧ now - cb.lastFailTime ≤ cb.timeout then
    (cb, .breakerOpen)
  else
    let cb1 : CircuitBreaker :=
      if cb.state = .opened then { cb with state := .halfOpen, failures := 0 } else cb
    match fnResult with
    | some e =>
        ({ cb1 with
            failures := cb1.failures + 1
            lastFailTime := now
            state := if cb1.failures + 1 ≥ cb1.maxFailures then .opened else cb1.state },
          .fnError e)
    | none => ({ cb1 with failures := 0, state := .closed }, .fnOk)

/-- Fold a sequence of `(now, fnResult)` calls through the breaker,
keeping only the final breaker state. -/
def foldCalls (cb : CircuitBreaker) (calls : List (Nat × Option GoError)) : CircuitBreaker :=
  calls.foldl (fun cb p => (cb.Call p.1 p.2).1) cb

/-- Model of the breaker interaction of `pinterest.Client.Scrape`
(`src/unnamed/part_002`, lines 127–143): the goroutine runs
`circuitBreaker.Call(func() error { return c.scrapeWithRetries(...) })`,
so the scrape body's outcome — `ErrQueryExhausted` on consecutive-timeout
exhaustion, a driver error, or success — is exactly the error that
`Call`'s `fn` returns. The `err != ErrQueryExhausted` test in `Scrape`
only gates logging and happens after `Call` has already observed `err`. -/
def scrapeBreakerStep (cb : CircuitBreaker) (now : Nat) (outcome : Option GoError) :
    CircuitBreaker × CallOutcome :=
  cb.Call now outcome

/-- A run of scrapes each of which ends in `ErrQueryExhausted`, at the
given instants. -/
def scrapeExhaustedRun (cb : CircuitBreaker) (times : List Nat) : CircuitBreaker :=
  times.foldl (fun cb t => (scrapeBreakerStep cb t (some .queryExhausted)).1) cb

lemma Call_fst_maxFailures (cb : CircuitBreaker) (now : Nat) (r : Option GoError) :
    (cb.Call now r).1.maxFailures = cb.maxFailures := by
  unfold CircuitBreaker.Call
  split
  · rfl
  · cases r <;> simp <;> split <;> rfl

lemma Call_fst_timeout (cb : CircuitBreaker) (now : Nat) (r : Option GoError) :
    (cb.Call now r).1.timeout = cb.timeout := by
  unfold CircuitBreaker.Call
  split
  · rfl
  · cases r <;> simp <;> split <;> rfl

lemma Call_closed_fail (cb : CircuitBreaker) (now : Nat) (e : GoError)
    (h : cb.state = .closed) :
    cb.Call now (some e) =
      ({ cb with
          failures := cb.failures + 1
          lastFailTime := now
          state := if cb.failures + 1 ≥ cb.maxFailures then .opened else .closed },
        .fnError e) := by
  unfold CircuitBreaker.Call
  rw [if_neg (by simp [h])]
  simp [h]

/-- In the closed state, a run of failures too short to reach
`maxFailures` just accumulates the counter and stays closed. -/
lemma foldCalls_closed_short (e : GoError) :
    ∀ (ts : List Nat) (cb : CircuitBreaker),
      cb.state = .closed →
      cb.failures + ts.length < cb.maxFailures →
      (foldCalls cb (ts.map fun t => (t, some e))).state = .closed ∧
      (foldCalls cb (ts.map fun t => (t, some e))).failures = cb.failures + ts.length ∧
      (foldCalls cb (ts.map fun t => (t, some e))).maxFailures = cb.maxFailures ∧
      (foldCalls cb (ts.map fun t => (t, some e))).timeout = cb.timeout := by
  intro ts
  induction ts with
  | nil => intro cb h _; simpa [foldCalls] using h
  | cons t ts ih =>
      intro cb h hlt
      simp only [List.length_cons] at hlt
      have hif : ¬ cb.failures + 1 ≥ cb.maxFailures := by omega
      have hstep : (cb.Call t (some e)).1 =
          { cb with failures := cb.failures + 1, lastFailTime := t, state := .closed } := by
        rw [Call_closed_fail cb t e h]
        simp [if_neg hif]
      have hrec := ih { cb with failures := cb.failures + 1, lastFailTime := t, state := .closed }
        rfl (by simp only; omega)
      have hfold : foldCalls cb ((t :: ts).map fun s => (s, some e)) =
          foldCalls { cb with failures := cb.failures + 1, lastFailTime := t, state := .closed }
            (ts.map fun s => (s, some e)) := by
        simp only [List.map_cons, foldCalls, List.foldl_cons, hstep]
      rw [hfold]
      obtain ⟨h1, h2, h3, h4⟩ := hrec
      refine ⟨h1, ?_, by simpa using h3, by simpa using h4⟩
      simp only at h2
      simp only [List.length_cons]
      omega

/-- A run of exactly enough consecutive failures trips a closed breaker:
the final state is open, the counter equals `maxFailures`, and
`lastFailTime` is the time of the last call. -/
lemma foldCalls_closed_trip (e : GoError) :
    ∀ (ts : List Nat) (cb : CircuitBreaker),
      ts ≠ [] →
      cb.state = .closed →
      cb.failures + ts.length = cb.maxFailures →
      (foldCalls cb (ts.map fun t => (t, some e))).state = .opened ∧
      (foldCalls cb (ts.map fun t => (t, some e))).failures = cb.maxFailures ∧
      (foldCalls cb (ts.map fun t => (t, some e))).lastFailTime = ts.getLastD 0 ∧
      (foldCalls cb (ts.map fun t => (t, some e))).maxFailures = cb.maxFailures ∧
      (foldCalls cb (ts.map fun t => (t, some e))).timeout = cb.timeout := by
  intro ts
  induction ts with
  | nil => intro cb hne; exact absurd rfl hne
  | cons t ts ih =>
      intro cb _ h hlen
      have hstep := Call_closed_fail cb t e h
      cases ts with
      | nil =>
          have hge : cb.failures + 1 ≥ cb.maxFailures := by
            simp only [List.length_cons, List.length_nil] at hlen; omega
          simp [foldCalls, hstep, if_pos hge]
          simp only [List.length_cons, List.length_nil] at hlen
          omega
      | cons t' ts' =>
          have hif : ¬ (cb.failures + 1 ≥ cb.maxFailures) := by
            simp only [List.length_cons] at hlen; omega
          have := ih ⟨cb.failures + 1, cb.maxFailures, .closed, t, cb.timeout⟩
            (by simp) rfl
            (by simp only [List.length_cons] at hlen ⊢; omega)
          simp only [foldCalls, List.map_cons, List.foldl_cons, hstep, if_neg hif] at *
          simpa [foldCalls, List.getLastD] using this

/-- C8 helper: an open breaker, probed while at most `timeout` has elapsed,
returns the breaker-open error without invoking `fn` and is unchanged. -/
lemma Call_open_failFast (cb : CircuitBreaker) (now : Nat) (r : Option GoError)
    (h : cb.state = .opened) (ht : now - cb.lastFailTime ≤ cb.timeout) :
    cb.Call now r = (cb, .breakerOpen) := by
  unfold CircuitBreaker.Call
  rw [if_pos ⟨h, ht⟩]

/-- C8 helper: an open breaker, probed after more than `timeout` has
elapsed, accepts the call (half-open) and invokes `fn`. -/
lemma Call_open_halfOpen (cb : CircuitBreaker) (now : Nat) (r : Option GoError)
    (h : cb.state = .opened) (ht : cb.timeout < now - cb.lastFailTime) :
    (cb.Call now r).2 ≠ .breakerOpen := by
  unfold CircuitBreaker.Call
  rw [if_neg (by omega)]
  cases r <;> simp

/-- C8: from `CLOSED` with a zero counter, exactly `maxFailures`
consecutive failing calls (no intervening success) leave the breaker
`OPEN` with `lastFailTime` the instant of the last failure; every strictly
shorter run leaves it `CLOSED`; while the breaker is open, a call made
less than `timeout` after `lastFailTime` returns the breaker-open error
with the breaker unchanged (so `fn` is not invoked); and a call made more
than `timeout` after `lastFailTime` is accepted and invokes `fn`. -/
theorem breaker_trips_and_fails_fast (cb : CircuitBreaker) (e : GoError) (ts : List Nat)
    (hclosed : cb.state = .closed) (hzero : cb.failures = 0)
    (hmax : 1 ≤ cb.maxFailures) (hlen : ts.length = cb.maxFailures) :
    (∀ k, k < ts.length →
      (foldCalls cb ((ts.take k).map fun t => (t, some e))).state = .closed) ∧
    (foldCalls cb (ts.map fun t => (t, some e))).state = .opened ∧
    (foldCalls cb (ts.map fun t => (t, some e))).failures = cb.maxFailures ∧
    (foldCalls cb (ts.map fun t => (t, some e))).lastFailTime = ts.getLastD 0 ∧
    (∀ now r, now - ts.getLastD 0 < cb.timeout →
      (foldCalls cb (ts.map fun t => (t, some e))).Call now r =
        (foldCalls cb (ts.map fun t => (t, some e)), .breakerOpen)) ∧
    (∀ now r, cb.timeout < now - ts.getLastD 0 →
      ((foldCalls cb (ts.map fun t => (t, some e))).Call now r).2 ≠ .breakerOpen) := by
  have hne : ts ≠ [] := by
    intro hcon; rw [hcon] at hlen; simp at hlen; omega
  have htrip := foldCalls_closed_trip e ts cb hne hclosed (by omega)
  refine ⟨?_, htrip.1, htrip.2.1, htrip.2.2.1, ?_, ?_⟩
  · intro k hk
    have := foldCalls_closed_short e (ts.take k) cb hclosed
      (by rw [List.length_take]; omega)
    exact this.1
  · intro now r hnow
    exact Call_open_failFast _ now r htrip.1
      (by rw [htrip.2.2.1, htrip.2.2.2.2]; omega)
  · intro now r hnow
    exact Call_open_halfOpen _ now r htrip.1
      (by rw [htrip.2.2.1, htrip.2.2.2.2]; omega)

/-- Witness for `breaker_trips_and_fails_fast` at a concrete breaker
(`maxFailures = 2`, `timeout = 60`) and failure instants `[5, 7]`. -/
theorem breaker_trips_and_fails_fast_witness :
    (foldCalls (NewCircuitBreaker 2 60) ([5, 7].map fun t => (t, some .driverFailure))).state
        = .opened ∧
    (foldCalls (NewCircuitBreaker 2 60)
        ([5, 7].map fun t => (t, some .driverFailure))).Call 30 (some .driverFailure) =
      (foldCalls (NewCircuitBreaker 2 60) ([5, 7].map fun t => (t, some .driverFailure)),
        .breakerOpen) := by
  have h := breaker_trips_and_fails_fast (NewCircuitBreaker 2 60) .driverFailure [5, 7]
    rfl rfl (by decide) (by decide)
  exact ⟨h.2.1, h.2.2.2.2.1 30 (some .driverFailure) (by decide)⟩

lemma Call_notOpen_fail (cb : CircuitBreaker) (now : Nat) (e : GoError)
    (h : cb.state ≠ .opened) :
    cb.Call now (some e) =
      ({ cb with
          failures := cb.failures + 1
          lastFailTime := now
          state := if cb.failures + 1 ≥ cb.maxFailures then .opened else cb.state },
        .fnError e) := by
  unfold CircuitBreaker.Call
  rw [if_neg (fun hc => h hc.1), if_neg h]

lemma Call_notOpen_ok (cb : CircuitBreaker) (now : Nat)
    (h : cb.state ≠ .opened) :
    cb.Call now none = ({ cb with failures := 0, state := .closed }, .fnOk) := by
  unfold CircuitBreaker.Call
  rw [if_neg (fun hc => h hc.1), if_neg h]

/-- C2: contrary to the spec, query exhaustion IS counted as a breaker
failure by the code. `Client.Scrape` returns `ErrQueryExhausted` from the
function passed to `circuitBreaker.Call`, whose failure branch runs on any
non-nil error: with the client's actual breaker (`NewCircuitBreaker(3,
time.Minute)`), three consecutive scrapes that end in `ErrQueryExhausted`
leave `failures = 3` and state `OPEN` (the claim says counter and state
are unchanged and OPEN is unreachable this way), and a fourth scrape
within the timeout fails fast without running. -/
theorem exhaustion_trips_breaker :
    (scrapeExhaustedRun (NewCircuitBreaker 3 60) [0, 1, 2]).failures = 3 ∧
    (scrapeExhaustedRun (NewCircuitBreaker 3 60) [0, 1, 2]).state = .opened ∧
    (scrapeBreakerStep (scrapeExhaustedRun (NewCircuitBreaker 3 60) [0, 1, 2]) 30
        (some .queryExhausted)).2 = .breakerOpen := by
  decide

/-- C3 counterexample: with the code's actual parameters
(`maxFailures = 3`, as in `NewCircuitBreaker(3, time.Minute)`), a `Call`
whose `fn` fails while the breaker is `HALF_OPEN` does NOT transition it
to `OPEN` (the counter was reset to 0 on entering half-open, and `1 < 3`),
and the immediately following `Call` does not fail fast: `fn` is invoked
again. -/
theorem halfOpen_failure_not_reopen :
    ((CircuitBreaker.mk 0 3 .halfOpen 0 60).Call 10 (some .driverFailure)).1.state
        = .halfOpen ∧
    ((CircuitBreaker.mk 0 3 .halfOpen 0 60).Call 10 (some .driverFailure)).1.state
        ≠ .opened ∧
    ((((CircuitBreaker.mk 0 3 .halfOpen 0 60).Call 10
        (some .driverFailure)).1.Call 11 (some .driverFailure)).2 ≠ .breakerOpen) := by
  decide

/-- C3 amended: in `HALF_OPEN`, a failing `Call` bumps `lastFailureTime`
and increments the failure counter, transitioning to `OPEN` exactly when
the incremented counter reaches `maxFailures` (so a single half-open
failure reopens the breaker only when `maxFailures = 1`, since the counter
is reset to 0 on entering half-open); a successful `Call` transitions to
`CLOSED` and resets the counter. -/
theorem halfOpen_call_transitions (cb : CircuitBreaker) (now : Nat) (e : GoError)
    (h : cb.state = .halfOpen) :
    ((cb.Call now (some e)).1.failures = cb.failures + 1 ∧
      (cb.Call now (some e)).1.lastFailTime = now ∧
      ((cb.Call now (some e)).1.state = .opened ↔ cb.maxFailures ≤ cb.failures + 1) ∧
      (¬ cb.maxFailures ≤ cb.failures + 1 → (cb.Call now (some e)).1.state = .halfOpen)) ∧
    ((cb.Call now none).1.state = .closed ∧ (cb.Call now none).1.failures = 0) := by
  have hne : cb.state ≠ .opened := by rw [h]; intro hc; cases hc
  rw [Call_notOpen_fail cb now e hne, Call_notOpen_ok cb now hne]
  refine ⟨⟨rfl, rfl, ?_, ?_⟩, rfl, rfl⟩
  · by_cases hge : cb.maxFailures ≤ cb.failures + 1
    · rw [if_pos (show cb.failures + 1 ≥ cb.maxFailures from hge)]
      exact iff_of_true rfl hge
    · rw [if_neg (by omega)]
      exact iff_of_false (by rw [h]; intro hc; cases hc) hge
  · intro hlt
    rw [if_neg (by omega)]
    exact h

/-- Witness for `halfOpen_call_transitions` at a concrete half-open
breaker with `maxFailures = 3`. -/
theorem halfOpen_call_transitions_witness :
    ((CircuitBreaker.mk 0 3 .halfOpen 0 60).Call 10 (some .driverFailure)).1.failures = 1 ∧
    ((CircuitBreaker.mk 0 3 .halfOpen 0 60).Call 10 none).1.state = .closed := by
  have h := halfOpen_call_transitions (CircuitBreaker.mk 0 3 .halfOpen 0 60) 10
    .driverFailure rfl
  exact ⟨h.1.1, h.2.1⟩

/-! ## Client-history store (`database/db.go`) -/

/-- Lookup in an association list, first match wins (bbolt `Get`: a key is
present at most once per bucket in the models below). -/
def lookupAssoc {α : Type} (k : String) : List (String × α) → Option α
  | [] => none
  | (k', v) :: rest => if k' = k then some v else lookupAssoc k rest

/-- Remove every binding of a key. -/
def eraseKey {α : Type} (k : String) : List (String × α) → List (String × α)
  | [] => []
  | (k', v) :: rest => if k' = k then eraseKey k rest else (k', v) :: eraseKey k rest

/-- bbolt `Put`: replace any existing binding of the key. -/
def putAssoc {α : Type} (k : String) (v : α) (l : List (String × α)) : List (String × α) :=
  (k, v) :: eraseKey k l

/-- A bbolt bucket: string keys to string values. -/
abbrev Bucket := List (String × String)

/-- The `data/render.db` store: one bucket per `clientName`. -/
abbrev DBModel := List (String × Bucket)

/-- Model of `DB.HasClientSeenImage`: a missing client bucket means "not
seen"; otherwise membership of `fmt.Sprintf("%d", hash)` in the bucket
(the stored value is irrelevant; the code tests `Get(...) != nil`). -/
def hasClientSeenImage (db : DBModel) (clientName : String) (hash : Nat) : Bool :=
  match lookupAssoc clientName db with
  | none => false
  | some b => (lookupAssoc (toString hash) b).isSome

/-- Model of `DB.MarkImageAsSeen`: `CreateBucketIfNotExists(clientName)`
then `Put(fmt.Sprintf("%d", hash), []byte("1"))`. Note the stored value is
the constant string `"1"`. -/
def markImageAsSeen (db : DBModel) (clientName : String) (hash : Nat) : DBModel :=
  let b := (lookupAssoc clientName db).getD []
  putAssoc clientName (putAssoc (toString hash) "1" b) db

/-- Modelled from the spec, which describes persisted entries as
`fingerprint-string → RFC3339 timestamp`: a minimal shape check for an
RFC3339 timestamp (`YYYY-MM-DDTHH:MM:SS...`): at least 20 characters,
dashes at offsets 4 and 7, a `T` at offset 10. Every RFC3339 timestamp
passes this; it is used only to show a stored value is not a timestamp. -/
def isRFC3339Shaped (s : String) : Bool :=
  let cs := s.toList
  decide (cs.length ≥ 20) && (cs.getD 4 ' ' == '-') && (cs.getD 7 ' ' == '-')
    && (cs.getD 10 ' ' == 'T')

lemma lookupAssoc_putAssoc_self {α : Type} (k : String) (v : α) (l : List (String × α)) :
    lookupAssoc k (putAssoc k v l) = some v := by
  simp [putAssoc, lookupAssoc]

lemma lookupAssoc_eraseKey_ne {α : Type} (k k' : String) (l : List (String × α))
    (h : k' ≠ k) : lookupAssoc k' (eraseKey k l) = lookupAssoc k' l := by
  induction l with
  | nil => rfl
  | cons p rest ih =>
      obtain ⟨k'', v⟩ := p
      by_cases hk : k'' = k
      · simp only [eraseKey, if_pos hk, lookupAssoc, ih]
        rw [if_neg (by rw [hk]; exact fun hc => h hc.symm)]
      · simp only [eraseKey, if_neg hk, lookupAssoc, ih]

lemma lookupAssoc_putAssoc_ne {α : Type} (k k' : String) (v : α) (l : List (String × α))
    (h : k' ≠ k) : lookupAssoc k' (putAssoc k v l) = lookupAssoc k' l := by
  rw [putAssoc, lookupAssoc, if_neg (show ¬ k = k' from fun hc => h hc.symm)]
  exact lookupAssoc_eraseKey_ne k k' l h

lemma eraseKey_eraseKey {α : Type} (k : String) (l : List (String × α)) :
    eraseKey k (eraseKey k l) = eraseKey k l := by
  induction l with
  | nil => rfl
  | cons p rest ih =>
      obtain ⟨k', v⟩ := p
      by_cases hk : k' = k
      · simp only [eraseKey, if_pos hk, ih]
      · simp only [eraseKey, if_neg hk, ih]

lemma putAssoc_putAssoc {α : Type} (k : String) (v v' : α) (l : List (String × α)) :
    putAssoc k v (putAssoc k v' l) = putAssoc k v l := by
  show (k, v) :: eraseKey k ((k, v') :: eraseKey k l) = (k, v) :: eraseKey k l
  rw [eraseKey, if_pos rfl, eraseKey_eraseKey]

lemma markImageAsSeen_eq (db : DBModel) (c : String) (h : Nat) :
    markImageAsSeen db c h
      = putAssoc c (putAssoc (toString h) "1" ((lookupAssoc c db).getD [])) db := rfl

lemma hasClientSeenImage_eq (db : DBModel) (c : String) (h : Nat) :
    hasClientSeenImage db c h
      = (lookupAssoc (toString h) ((lookupAssoc c db).getD [])).isSome := by
  unfold hasClientSeenImage
  cases lookupAssoc c db <;> rfl

/-- C9 counterexample: after `MarkImageAsSeen("alice", 42)` on an empty
store, the bucket `"alice"` maps the fingerprint string `"42"` to the
constant `"1"` — not to an RFC3339 timestamp as the claim states (the
value does not even have a timestamp's shape, and does not depend on the
current time, which `markImageAsSeen`, like the Go code, never reads). -/
theorem markSeen_value_not_timestamp :
    lookupAssoc "42" ((lookupAssoc "alice" (markImageAsSeen [] "alice" 42)).getD [])
        = some "1" ∧
    isRFC3339Shaped "1" = false := by
  constructor
  · rfl
  · rfl

/-- C9 amended: `MarkImageAsSeen` is an idempotent upsert whose stored
value is the constant string `"1"` (not a timestamp): after it runs, the
client's bucket maps the base-10 fingerprint string to `"1"`, and running
it again changes nothing at all (the store is unchanged, hence in
particular no membership changes). -/
theorem markSeen_idempotent_upsert (db : DBModel) (c : String) (h : Nat) :
    markImageAsSeen (markImageAsSeen db c h) c h = markImageAsSeen db c h ∧
    hasClientSeenImage (markImageAsSeen db c h) c h = true ∧
    lookupAssoc (toString h) ((lookupAssoc c (markImageAsSeen db c h)).getD [])
        = some "1" := by
  refine ⟨?_, ?_, ?_⟩
  · simp only [markImageAsSeen_eq, lookupAssoc_putAssoc_self, Option.getD_some,
      putAssoc_putAssoc]
  · simp only [hasClientSeenImage_eq, markImageAsSeen_eq, lookupAssoc_putAssoc_self,
      Option.getD_some, Option.isSome_some]
  · simp only [markImageAsSeen_eq, lookupAssoc_putAssoc_self, Option.getD_some]

/-! ## Session pump (`src/unnamed/part_003`, `wsHandler.OnMessage`) -/

/-- Model of `scraper.ScrapedImage`. -/
structure ScrapedImage where
  Data : List Nat
  Hash : Nat
  ID : String
deriving DecidableEq, Repr

/-- Model of the delivery goroutine of `wsHandler.OnMessage`
(`src/unnamed/part_003`, lines 228–254): for each image from the job
channel, skip it if `HasClientSeenImage`, otherwise send the binary and
text frames and then `MarkImageAsSeen`. Returns the final store and the
list of delivered images in order. (A socket write failure terminates the
loop early, delivering a prefix of this list; every property proved below
about delivered streams is inherited by prefixes.) -/
def sessionPump (db : DBModel) (clientName : String) :
    List ScrapedImage → DBModel × List ScrapedImage
  | [] => (db, [])
  | img :: rest =>
      if hasClientSeenImage db clientName img.Hash then
        sessionPump db clientName rest
      else
        ((sessionPump (markImageAsSeen db clientName img.Hash) clientName rest).1,
          img :: (sessionPump (markImageAsSeen db clientName img.Hash) clientName rest).2)

lemma hasSeen_markSeen_self (db : DBModel) (c : String) (h : Nat) :
    hasClientSeenImage (markImageAsSeen db c h) c h = true := by
  simp only [hasClientSeenImage_eq, markImageAsSeen_eq, lookupAssoc_putAssoc_self,
    Option.getD_some, Option.isSome_some]

lemma hasSeen_markSeen_mono (db : DBModel) (c : String) (h h' : Nat)
    (hs : hasClientSeenImage db c h' = true) :
    hasClientSeenImage (markImageAsSeen db c h) c h' = true := by
  rw [hasClientSeenImage_eq] at hs
  rw [hasClientSeenImage_eq, markImageAsSeen_eq, lookupAssoc_putAssoc_self,
    Option.getD_some]
  by_cases hkey : (toString h' : String) = toString h
  · rw [hkey, lookupAssoc_putAssoc_self]
    rfl
  · rw [lookupAssoc_putAssoc_ne _ _ _ _ hkey]
    exact hs

lemma sessionPump_seen_mono (c : String) (h : Nat) :
    ∀ (imgs : List ScrapedImage) (db : DBModel),
      hasClientSeenImage db c h = true →
      hasClientSeenImage (sessionPump db c imgs).1 c h = true := by
  intro imgs
  induction imgs with
  | nil => intro db hs; exact hs
  | cons img rest ih =>
      intro db hs
      rw [sessionPump]
      split
      · exact ih db hs
      · exact ih _ (hasSeen_markSeen_mono db c img.Hash h hs)

lemma sessionPump_seen_not_delivered (c : String) (h : Nat) :
    ∀ (imgs : List ScrapedImage) (db : DBModel),
      hasClientSeenImage db c h = true →
      h ∉ (sessionPump db c imgs).2.map ScrapedImage.Hash := by
  intro imgs
  induction imgs with
  | nil => intro db _; simp [sessionPump]
  | cons img rest ih =>
      intro db hs
      rw [sessionPump]
      split
      · exact ih db hs
      · rename_i hnotseen
        simp only [List.map_cons, List.mem_cons, not_or]
        constructor
        · intro hc
          rw [← hc] at hnotseen
          exact hnotseen hs
        · exact ih _ (hasSeen_markSeen_mono db c img.Hash h hs)

/-- C1: the per-client uniqueness invariant of the session pump. For every
prior store state and every stream of images arriving on one WebSocket
session's channel, the fingerprints of the delivered images are pairwise
distinct, and after the pump runs, `HasClientSeenImage` returns `true` for
the fingerprint of every delivered image (the pump checks `HasSeen` before
sending and calls `MarkSeen` after sending). -/
theorem pump_per_client_uniqueness (db : DBModel) (c : String) (imgs : List ScrapedImage) :
    ((sessionPump db c imgs).2.map ScrapedImage.Hash).Nodup ∧
    ∀ img ∈ (sessionPump db c imgs).2,
      hasClientSeenImage (sessionPump db c imgs).1 c img.Hash = true := by
  induction imgs generalizing db with
  | nil => exact ⟨List.nodup_nil, by simp [sessionPump]⟩
  | cons img rest ih =>
      rw [sessionPump]
      split
      · exact ih db
      · obtain ⟨ihnodup, ihseen⟩ := ih (markImageAsSeen db c img.Hash)
        refine ⟨?_, ?_⟩
        · simp only [List.map_cons]
          exact List.nodup_cons.mpr
            ⟨sessionPump_seen_not_delivered c img.Hash rest _
              (hasSeen_markSeen_self db c img.Hash), ihnodup⟩
        · intro i hi
          simp only [List.mem_cons] at hi
          rcases hi with rfl | hi
          · exact sessionPump_seen_mono c i.Hash rest _
              (hasSeen_markSeen_self db c i.Hash)
          · exact ihseen i hi

/-! ## Sequential query list (`query/query.go`) -/

namespace Query

/-- Model of `query.QueryManager`: an immutable list walked by index. -/
structure QueryManager where
  queries : List String
  index : Nat
deriving DecidableEq, Repr

/-- Model of `query.QueryManager.GetNextQuery`: Go returns `(query, ok)`;
`none` stands for `("", false)`. The index advances past the returned
query. -/
def QueryManager.GetNextQuery (qm : QueryManager) : Option String × QueryManager :=
  if qm.queries.length ≤ qm.index then (none, qm)
  else (some (qm.queries.getD qm.index ""), { qm with index := qm.index + 1 })

lemma GetNextQuery_cons (q0 : String) (rest : List String) :
    QueryManager.GetNextQuery { queries := q0 :: rest, index := 0 }
      = (some q0, { queries := q0 :: rest, index := 1 }) := by
  unfold QueryManager.GetNextQuery
  rw [if_neg (by simp)]
  rfl

lemma GetNextQuery_fst_eq_none (qm : QueryManager) :
    qm.GetNextQuery.1 = none ↔ qm.queries.length ≤ qm.index := by
  unfold QueryManager.GetNextQuery
  split
  · rename_i hle; exact iff_of_true rfl hle
  · rename_i hgt; exact iff_of_false (by simp) hgt

end Query

/-! ## Scrape manager (`manager/manager.go`) -/

/-- Model of `manager.ScrapeJob`. Subscriber channels are modelled by
numeric identifiers (`clientName → channel id`); the `cancel` handle is
dropped (its only effect in the modelled operations is task teardown). -/
structure ScrapeJob where
  Query : String
  BaseQuery : String
  Subscribers : List (String × Nat)
deriving DecidableEq, Repr

/-- Model of `manager.ScrapeManager`. The `jobs` map is keyed by QUERY
(the Go comment says "Maps query to job"); `queryManagers` is keyed by
base query. `nextCh` supplies fresh channel identifiers for
`make(chan ...)`. -/
structure ScrapeManager where
  jobs : List (String × ScrapeJob)
  queryManagers : List (String × Query.QueryManager)
  nextCh : Nat
deriving DecidableEq, Repr

/-- Model of `ScrapeManager.Subscribe(clientName, queries)`: builds a new
`query.QueryManager` over `queries`, stores it under `queries[0]`, draws
the first query from it, registers a fresh job under that query keyed in
`jobs`, and subscribes the client with a fresh buffered channel. `none`
models the panic on `queries[0]` for an empty slice (and the `!ok` error
return, unreachable for non-empty `queries`). A prior job for the same
client is NOT looked up or stopped. -/
def ScrapeManager.Subscribe (m : ScrapeManager) (clientName : String)
    (queries : List String) : Option (ScrapeManager × Nat) :=
  match queries with
  | [] => none
  | q0 :: _ =>
      let qm0 : Query.QueryManager := { queries := queries, index := 0 }
      match qm0.GetNextQuery.1 with
      | none => none
      | some nextQuery =>
          let job : ScrapeJob :=
            { Query := nextQuery, BaseQuery := q0
              Subscribers := [(clientName, m.nextCh)] }
          some
            ({ jobs := putAssoc nextQuery job m.jobs
               queryManagers := putAssoc q0 qm0.GetNextQuery.2 m.queryManagers
               nextCh := m.nextCh + 1 }, m.nextCh)

/-- Model of `ScrapeManager.handleJobFailure(oldJob)` — the reaction to a
closed scrape channel (query exhausted). Returns the new manager state
and the list of subscriber channels closed by the call. Mirrors the Go
control flow: early return if the job left the registry or has no
subscribers; early return if the query manager for the base query is
missing; on rotator exhaustion close every subscriber channel and drop the
query manager (the job entry itself is not deleted); otherwise register a
new job with THE SAME subscriber channels under the next query, remove
the old job entry, and close nothing. -/
def ScrapeManager.handleJobFailure (m : ScrapeManager) (oldJob : ScrapeJob) :
    ScrapeManager × List Nat :=
  if (lookupAssoc oldJob.Query m.jobs).isNone ∨ oldJob.Subscribers = [] then (m, [])
  else
    match lookupAssoc oldJob.BaseQuery m.queryManagers with
    | none => (m, [])
    | some qm =>
        match qm.GetNextQuery.1 with
        | none =>
            ({ m with queryManagers := eraseKey oldJob.BaseQuery m.queryManagers },
              oldJob.Subscribers.map (fun s => s.2))
        | some newQuery =>
            let newJob : ScrapeJob :=
              { Query := newQuery, BaseQuery := oldJob.BaseQuery
                Subscribers := oldJob.Subscribers }
            ({ m with
                jobs := eraseKey oldJob.Query (putAssoc newQuery newJob m.jobs)
                queryManagers := putAssoc oldJob.BaseQuery qm.GetNextQuery.2
                  m.queryManagers }, [])

/-- C4: query-chaining non-closure. Part 1: if the job is registered, has
at least one subscriber, and the base query's rotator still has a next
query, then `handleJobFailure` closes NO subscriber channel and registers
a job under the next query with exactly the same subscriber channels.
Part 2: `handleJobFailure` closes channels only on rotator exhaustion —
whenever it closes anything, the rotator of the job's base query exists
and its index has passed the end of the query list, and what is closed is
exactly the job's subscriber channels. -/
theorem handleJobFailure_chaining (m : ScrapeManager) (oldJob : ScrapeJob)
    (qm : Query.QueryManager)
    (hjob : (lookupAssoc oldJob.Query m.jobs).isSome)
    (hsubs : oldJob.Subscribers ≠ [])
    (hqm : lookupAssoc oldJob.BaseQuery m.queryManagers = some qm)
    (hmore : qm.index < qm.queries.length)
    (hne : qm.queries.getD qm.index "" ≠ oldJob.Query) :
    ((m.handleJobFailure oldJob).2 = [] ∧
      lookupAssoc (qm.queries.getD qm.index "") (m.handleJobFailure oldJob).1.jobs
        = some { Query := qm.queries.getD qm.index ""
                 BaseQuery := oldJob.BaseQuery
                 Subscribers := oldJob.Subscribers }) ∧
    (∀ (m2 : ScrapeManager) (j2 : ScrapeJob),
      (m2.handleJobFailure j2).2 ≠ [] →
      ∃ qm2, lookupAssoc j2.BaseQuery m2.queryManagers = some qm2 ∧
        qm2.queries.length ≤ qm2.index ∧
        (m2.handleJobFailure j2).2 = j2.Subscribers.map (fun s => s.2)) := by
  constructor
  · have hnext : qm.GetNextQuery.1 = some (qm.queries.getD qm.index "") := by
      unfold Query.QueryManager.GetNextQuery
      rw [if_neg (by omega)]
    have hA : ¬ ((lookupAssoc oldJob.Query m.jobs).isNone = true) := by
      rw [Option.isNone_iff_eq_none]
      intro hc
      rw [hc] at hjob
      simp at hjob
    have hred : m.handleJobFailure oldJob =
        ({ m with
            jobs := eraseKey oldJob.Query
              (putAssoc (qm.queries.getD qm.index "")
                { Query := qm.queries.getD qm.index ""
                  BaseQuery := oldJob.BaseQuery
                  Subscribers := oldJob.Subscribers } m.jobs)
            queryManagers := putAssoc oldJob.BaseQuery qm.GetNextQuery.2
              m.queryManagers }, []) := by
      unfold ScrapeManager.handleJobFailure
      rw [if_neg (not_or.mpr ⟨hA, hsubs⟩)]
      split
      · rename_i heq
        rw [hqm] at heq
        cases heq
      · rename_i qm' heq
        rw [hqm] at heq
        injection heq with heq
        subst heq
        split
        · rename_i hnone
          rw [hnext] at hnone
          cases hnone
        · rename_i q' hq
          rw [hnext] at hq
          injection hq with hq
          subst hq
          rfl
    rw [hred]
    refine ⟨rfl, ?_⟩
    rw [lookupAssoc_eraseKey_ne _ _ _ hne, lookupAssoc_putAssoc_self]
  · intro m2 j2 hclosed
    by_cases hc1 : (lookupAssoc j2.Query m2.jobs).isNone = true ∨ j2.Subscribers = []
    · have hr : m2.handleJobFailure j2 = (m2, []) := by
        unfold ScrapeManager.handleJobFailure
        rw [if_pos hc1]
      rw [hr] at hclosed
      exact absurd rfl hclosed
    · cases hqm2 : lookupAssoc j2.BaseQuery m2.queryManagers with
      | none =>
          have hr : m2.handleJobFailure j2 = (m2, []) := by
            unfold ScrapeManager.handleJobFailure
            rw [if_neg hc1]
            split
            · rfl
            · rename_i qm' heq
              rw [hqm2] at heq
              cases heq
          rw [hr] at hclosed
          exact absurd rfl hclosed
      | some qm2 =>
          cases hnq : qm2.GetNextQuery.1 with
          | some q =>
              have hr : (m2.handleJobFailure j2).2 = [] := by
                unfold ScrapeManager.handleJobFailure
                rw [if_neg hc1]
                split
                · rfl
                · rename_i qm' heq
                  rw [hqm2] at heq
                  injection heq with heq
                  subst heq
                  split
                  · rename_i hq0
                    rw [hnq] at hq0
                    cases hq0
                  · rfl
              exact absurd hr hclosed
          | none =>
              have hr : m2.handleJobFailure j2 =
                  ({ m2 with queryManagers := eraseKey j2.BaseQuery m2.queryManagers },
                    j2.Subscribers.map (fun s => s.2)) := by
                unfold ScrapeManager.handleJobFailure
                rw [if_neg hc1]
                split
                · rename_i heq
                  rw [hqm2] at heq
                  cases heq
                · rename_i qm' heq
                  rw [hqm2] at heq
                  injection heq with heq
                  subst heq
                  split
                  · rfl
                  · rename_i q' hq
                    rw [hnq] at hq
                    cases hq
              refine ⟨qm2, rfl, (Query.GetNextQuery_fst_eq_none qm2).mp hnq, ?_⟩
              rw [hr]

/-- Witness for `handleJobFailure_chaining`: a one-job manager whose
rotator has one query left chains without closing anything. -/
theorem handleJobFailure_chaining_witness :
    ((ScrapeManager.handleJobFailure
      { jobs := [("q1", { Query := "q1", BaseQuery := "q1", Subscribers := [("a", 0)] })]
        queryManagers := [("q1", { queries := ["q1", "q2"], index := 1 })]
        nextCh := 1 }
      { Query := "q1", BaseQuery := "q1", Subscribers := [("a", 0)] }).2 = [] ∧
      lookupAssoc "q2"
        (ScrapeManager.handleJobFailure
          { jobs := [("q1", { Query := "q1", BaseQuery := "q1", Subscribers := [("a", 0)] })]
            queryManagers := [("q1", { queries := ["q1", "q2"], index := 1 })]
            nextCh := 1 }
          { Query := "q1", BaseQuery := "q1", Subscribers := [("a", 0)] }).1.jobs
        = some { Query := "q2", BaseQuery := "q1", Subscribers := [("a", 0)] }) := by
  have h := handleJobFailure_chaining
    { jobs := [("q1", { Query := "q1", BaseQuery := "q1", Subscribers := [("a", 0)] })]
      queryManagers := [("q1", { queries := ["q1", "q2"], index := 1 })]
      nextCh := 1 }
    { Query := "q1", BaseQuery := "q1", Subscribers := [("a", 0)] }
    { queries := ["q1", "q2"], index := 1 }
    (by decide) (by decide) (by decide) (by decide) (by decide)
  exact h.1

lemma mem_keys_eraseKey_imp {α : Type} (k k' : String) (l : List (String × α)) :
    k' ∈ (eraseKey k l).map Prod.fst → k' ∈ l.map Prod.fst := by
  induction l with
  | nil => intro h; exact h
  | cons p rest ih =>
      obtain ⟨k'', v⟩ := p
      by_cases hk : k'' = k
      · intro h
        rw [eraseKey, if_pos hk] at h
        exact List.mem_cons_of_mem _ (ih h)
      · intro h
        rw [eraseKey, if_neg hk] at h
        rcases List.mem_cons.mp h with h | h
        · exact List.mem_cons.mpr (Or.inl h)
        · exact List.mem_cons_of_mem _ (ih h)

lemma not_mem_keys_eraseKey_self {α : Type} (k : String) (l : List (String × α)) :
    k ∉ (eraseKey k l).map Prod.fst := by
  induction l with
  | nil => intro h; exact absurd h (by simp [eraseKey])
  | cons p rest ih =>
      obtain ⟨k'', v⟩ := p
      by_cases hk : k'' = k
      · rw [eraseKey, if_pos hk]; exact ih
      · rw [eraseKey, if_neg hk]
        intro h
        rcases List.mem_cons.mp h with h | h
        · exact hk h.symm
        · exact ih h

lemma keys_eraseKey_nodup {α : Type} (k : String) (l : List (String × α))
    (h : (l.map Prod.fst).Nodup) : ((eraseKey k l).map Prod.fst).Nodup := by
  induction l with
  | nil => exact h
  | cons p rest ih =>
      obtain ⟨k'', v⟩ := p
      rw [List.map_cons, List.nodup_cons] at h
      by_cases hk : k'' = k
      · rw [eraseKey, if_pos hk]; exact ih h.2
      · rw [eraseKey, if_neg hk, List.map_cons, List.nodup_cons]
        exact ⟨fun hc => h.1 (mem_keys_eraseKey_imp k k'' rest hc), ih h.2⟩

lemma keys_putAssoc_nodup {α : Type} (k : String) (v : α) (l : List (String × α))
    (h : (l.map Prod.fst).Nodup) : ((putAssoc k v l).map Prod.fst).Nodup := by
  rw [putAssoc, List.map_cons, List.nodup_cons]
  exact ⟨not_mem_keys_eraseKey_self k l, keys_eraseKey_nodup k l h⟩

lemma Subscribe_cons (m : ScrapeManager) (c q0 : String) (rest : List String) :
    m.Subscribe c (q0 :: rest) =
      some
        ({ jobs := putAssoc q0
              { Query := q0, BaseQuery := q0, Subscribers := [(c, m.nextCh)] } m.jobs
           queryManagers := putAssoc q0 { queries := q0 :: rest, index := 1 }
             m.queryManagers
           nextCh := m.nextCh + 1 }, m.nextCh) := by
  unfold ScrapeManager.Subscribe
  simp only [Query.GetNextQuery_cons]

/-- C6 counterexample: the registry is keyed by query, not by client.
After client `"a"` subscribes twice — once with queries `["q1"]`, once
with `["q2"]` — the manager's `jobs` map holds TWO distinct entries
(`"q2"` and `"q1"`) whose jobs both list `"a"` among their subscribers,
contradicting the claim that no two distinct registry entries can carry
the same client. (The second `Subscribe` also did not replace or stop the
first job.) -/
theorem registry_two_jobs_for_one_client :
    ((({ jobs := [], queryManagers := [], nextCh := 0 } : ScrapeManager).Subscribe
          "a" ["q1"]).bind
        (fun p => p.1.Subscribe "a" ["q2"])).map
      (fun p => (p.1.jobs.filter
        (fun e => e.2.Subscribers.any (fun s => s.1 == "a"))).map Prod.fst)
      = some ["q2", "q1"] := by
  decide

/-- C6 amended: the registry holds at most one job per QUERY (the map is
keyed by query): if the job keys are distinct, they remain distinct after
any `Subscribe`, and a second `Subscribe` whose query list starts with the
same query replaces that key's entry with the new client's job. A client
subscribing with a different base query occupies a second, distinct
registry entry (see the counterexample). -/
theorem subscribe_replaces_per_query (m : ScrapeManager) (c q0 : String)
    (rest : List String) (hnodup : (m.jobs.map Prod.fst).Nodup) :
    ∃ m', m.Subscribe c (q0 :: rest) = some (m', m.nextCh) ∧
      (m'.jobs.map Prod.fst).Nodup ∧
      lookupAssoc q0 m'.jobs
        = some { Query := q0, BaseQuery := q0, Subscribers := [(c, m.nextCh)] } := by
  refine ⟨_, Subscribe_cons m c q0 rest, ?_, ?_⟩
  · exact keys_putAssoc_nodup _ _ _ hnodup
  · exact lookupAssoc_putAssoc_self _ _ _

/-- Witness for `subscribe_replaces_per_query` on an empty manager. -/
theorem subscribe_replaces_per_query_witness :
    ∃ m', ({ jobs := [], queryManagers := [], nextCh := 0 } : ScrapeManager).Subscribe
        "a" ["q1"] = some (m', 0) ∧
      (m'.jobs.map Prod.fst).Nodup ∧
      lookupAssoc "q1" m'.jobs
        = some { Query := "q1", BaseQuery := "q1", Subscribers := [("a", 0)] } :=
  subscribe_replaces_per_query { jobs := [], queryManagers := [], nextCh := 0 }
    "a" "q1" [] (by simp)

/-! ## Query rotator (`scraper/query_manager.go`) -/

namespace Scraper

/-- Go `time.Hour` in the time unit of the model (seconds). -/
def timeHour : Nat := 3600

/-- Model of `scraper.QueryManager`: base queries, modifiers, and the
`used` map from emitted query strings to the time they were emitted. -/
structure QueryManager where
  baseQueries : List String
  modifiers : List String
  used : List (String × Nat)
deriving DecidableEq, Repr

/-- Model of `scraper.QueryManager.GetNextQuery` at instant `now`. The
two `rand.Intn` draws of each recursive attempt are supplied by the
`choices` stream (`bi % len` / `mi % len` lands in range like
`rand.Intn`); Go's unbounded recursion is modelled by recursion on that
stream, so a `none` result means the code is still recursing after
`choices.length` attempts (it has NOT returned). A combination found in
`used` less than `time.Hour` ago is rejected and the function recurses;
otherwise the combination is recorded in `used` at `now` and returned. -/
def QueryManager.GetNextQuery (qm : QueryManager) (now : Nat) :
    List (Nat × Nat) → Option (String × QueryManager)
  | [] => none
  | (bi, mi) :: restChoices =>
      let base := qm.baseQueries.getD (bi % qm.baseQueries.length) ""
      let modifier := qm.modifiers.getD (mi % qm.modifiers.length) ""
      let query := modifier ++ " " ++ base
      match lookupAssoc query qm.used with
      | some lastUsed =>
          if now - lastUsed < timeHour then
            QueryManager.GetNextQuery qm now restChoices
          else
            some (query, { qm with used := putAssoc query now qm.used })
      | none => some (query, { qm with used := putAssoc query now qm.used })

end Scraper

/-- C7 counterexample: with one base query and one modifier whose single
combination `"m a"` was emitted at time 0, a call at time 0 (so within the
last hour) makes 10 attempts and is still recursing — it has returned
nothing, whereas the claim says `GetNextQuery` returns the latest
attempted combination after at most 10 rejection attempts. (The Go code
has no attempt counter at all: it recurses unconditionally on a fresh-ish
combination and overflows the stack when every combination is fresh.) -/
theorem getNextQuery_not_bounded_by_10 :
    Scraper.QueryManager.GetNextQuery
      { baseQueries := ["a"], modifiers := ["m"], used := [("m a", 0)] } 0
      (List.replicate 10 (0, 0)) = none := by
  decide

/-- C7 amended: `GetNextQuery` retries with NO attempt bound. It returns
the first drawn `"{modifier} {base}"` combination that is not in `used`
within the last hour, recording it at the current time; and when every
combination of a base query and a modifier was used within the last hour,
it does not return after any finite number of attempts. -/
theorem getNextQuery_unbounded_rotation :
    (∀ (qm : Scraper.QueryManager) (now : Nat) (choices : List (Nat × Nat)),
      qm.baseQueries ≠ [] → qm.modifiers ≠ [] →
      (∀ b ∈ qm.baseQueries, ∀ mo ∈ qm.modifiers,
        ∃ t, lookupAssoc (mo ++ " " ++ b) qm.used = some t ∧
          now - t < Scraper.timeHour) →
      qm.GetNextQuery now choices = none) ∧
    (∀ (qm : Scraper.QueryManager) (now bi mi : Nat) (rest : List (Nat × Nat)),
      (∀ t, lookupAssoc
          (qm.modifiers.getD (mi % qm.modifiers.length) "" ++ " " ++
            qm.baseQueries.getD (bi % qm.baseQueries.length) "") qm.used = some t →
        Scraper.timeHour ≤ now - t) →
      qm.GetNextQuery now ((bi, mi) :: rest) =
        some (qm.modifiers.getD (mi % qm.modifiers.length) "" ++ " " ++
            qm.baseQueries.getD (bi % qm.baseQueries.length) "",
          { qm with
              used := putAssoc
                (qm.modifiers.getD (mi % qm.modifiers.length) "" ++ " " ++
                  qm.baseQueries.getD (bi % qm.baseQueries.length) "") now
                qm.used })) := by
  constructor
  · intro qm now choices hbase hmod hall
    induction choices with
    | nil => rfl
    | cons ch rest ih =>
        obtain ⟨bi, mi⟩ := ch
        have hbmem : qm.baseQueries.getD (bi % qm.baseQueries.length) ""
            ∈ qm.baseQueries := by
          have hlen : 0 < qm.baseQueries.length := List.length_pos.mpr hbase
          rw [List.getD_eq_getElem qm.baseQueries "" (Nat.mod_lt bi hlen)]
          exact List.getElem_mem _
        have hmmem : qm.modifiers.getD (mi % qm.modifiers.length) ""
            ∈ qm.modifiers := by
          have hlen : 0 < qm.modifiers.length := List.length_pos.mpr hmod
          rw [List.getD_eq_getElem qm.modifiers "" (Nat.mod_lt mi hlen)]
          exact List.getElem_mem _
        obtain ⟨t, hlook, hfresh⟩ := hall _ hbmem _ hmmem
        simp only [Scraper.QueryManager.GetNextQuery, hlook, if_pos hfresh]
        exact ih
  · intro qm now bi mi rest hfresh
    cases hlook : lookupAssoc
        (qm.modifiers.getD (mi % qm.modifiers.length) "" ++ " " ++
          qm.baseQueries.getD (bi % qm.baseQueries.length) "") qm.used with
    | none => simp only [Scraper.QueryManager.GetNextQuery, hlook]
    | some t =>
        have hcond : ¬ now - t < Scraper.timeHour := by
          have := hfresh t hlook
          omega
        simp only [Scraper.QueryManager.GetNextQuery, hlook, if_neg hcond]

/-- Witness for `getNextQuery_unbounded_rotation`: the all-recently-used
rotator returns nothing for three attempts; the fresh rotator returns
`"m a"` on the first attempt and marks it used. -/
theorem getNextQuery_unbounded_rotation_witness :
    Scraper.QueryManager.GetNextQuery
        { baseQueries := ["a"], modifiers := ["m"], used := [("m a", 10)] } 20
        (List.replicate 3 (0, 0)) = none ∧
    Scraper.QueryManager.GetNextQuery
        { baseQueries := ["a"], modifiers := ["m"], used := [] } 5 [(0, 0)] =
      some ("m a",
        { baseQueries := ["a"], modifiers := ["m"], used := [("m a", 5)] }) := by
  constructor
  · exact getNextQuery_unbounded_rotation.1
      { baseQueries := ["a"], modifiers := ["m"], used := [("m a", 10)] } 20
      (List.replicate 3 (0, 0)) (by decide) (by decide) (by decide)
  · exact getNextQuery_unbounded_rotation.2
      { baseQueries := ["a"], modifiers := ["m"], used := [] } 5 0 0 []
      (by intro t ht; cases ht)

/-! ## dHash (`pkg/imaging`, the `DHash` function)

`DHash` first resizes the decoded image to 9×8 and converts it to 8-bit
grayscale; those two steps produce SOME grayscale matrix. The model takes
that matrix as its input: `gray x y` is `gray.GrayAt(x, y).Y`, defined on
`x < 9`, `y < 8` (values outside are never read by the loop). The claims
about the hashing loop are proved for every matrix, hence for every
image. -/

/-- The comparison bit of row `i`, column pair `j`:
`gray.GrayAt(j, i).Y > gray.GrayAt(j+1, i).Y`. -/
def cmpBit (gray : Nat → Nat → Nat) (i j : Nat) : Bool :=
  decide (gray (j + 1) i < gray j i)

/-- One iteration of the Go loop body on the `uint64` accumulator:
`if cmp { hash |= 1 }; hash <<= 1` — NOTE the shift happens AFTER the bit
is set. `uint64` overflow of the shift is the explicit `% 2 ^ 64`. -/
def packStep (hash : Nat) (b : Bool) : Nat :=
  ((if b then hash ||| 1 else hash) <<< 1) % 2 ^ 64

/-- Model of `imaging.DHash`'s difference loop:
`for i := 0..7 { for j := 0..7 { ... } }`. -/
def DHash (gray : Nat → Nat → Nat) : Nat :=
  (List.range 8).foldl
    (fun hash i =>
      (List.range 8).foldl (fun hash j => packStep hash (cmpBit gray i j)) hash)
    0

/-- The 64 loop index pairs `(i, j)` in execution order. -/
def dhashPairs : List (Nat × Nat) :=
  (List.range 8).flatMap (fun i => (List.range 8).map (fun j => (i, j)))

/-- The 64 comparison bits in the order the loop consumes them. -/
def dhashBits (gray : Nat → Nat → Nat) : List Bool :=
  dhashPairs.map (fun p => cmpBit gray p.1 p.2)

lemma DHash_eq_foldl_bits (gray : Nat → Nat → Nat) :
    DHash gray = (dhashBits gray).foldl packStep 0 := rfl

set_option maxRecDepth 20000

/-- C5 evidence: the dHash loop sets the bit and THEN shifts, so the very
first comparison is shifted out of the 64-bit word and bit 0 is never
set. On the all-black matrix every comparison is false and the hash is 0,
as the claim states; but on a strict left-to-right horizontal gradient
(every pixel brighter than its right neighbour, e.g. `gray x y = 8 - x`)
every comparison is true and the hash is `0xFFFFFFFFFFFFFFFE`, NOT the
claimed `0xFFFFFFFFFFFFFFFF`. -/
theorem dhash_black_and_gradient :
    DHash (fun _ _ => 0) = 0 ∧
    DHash (fun x _ => 8 - x) = 0xFFFFFFFFFFFFFFFE ∧
    DHash (fun x _ => 8 - x) ≠ 0xFFFFFFFFFFFFFFFF := by
  refine ⟨by decide, by decide, by decide⟩

lemma packStep_lt (h : Nat) (b : Bool) : packStep h b < 2 ^ 64 := by
  unfold packStep
  exact Nat.mod_lt _ (by norm_num)

lemma packStep_even (h : Nat) (b : Bool) : packStep h b % 2 = 0 := by
  unfold packStep
  rw [Nat.mod_mod_of_dvd _ (by norm_num : (2 : Nat) ∣ 2 ^ 64)]
  rw [Nat.shiftLeft_eq, pow_one, Nat.mul_mod_left]

lemma foldl_packStep_even (b : Bool) :
    ∀ (bs : List Bool) (h : Nat), (List.foldl packStep h (b :: bs)) % 2 = 0 := by
  intro bs
  induction bs generalizing b with
  | nil => intro h; exact packStep_even h b
  | cons b' bs ih => intro h; exact ih b' (packStep h b)

lemma lor_one_mod_congr (k a a' : Nat) (h : a % 2 ^ k = a' % 2 ^ k) :
    (a ||| 1) % 2 ^ k = (a' ||| 1) % 2 ^ k := by
  apply Nat.eq_of_testBit_eq
  intro i
  rw [Nat.testBit_mod_two_pow, Nat.testBit_mod_two_pow, Nat.testBit_lor, Nat.testBit_lor]
  by_cases hik : i < k
  · have hbit : a.testBit i = a'.testBit i := by
      have hcong := congrArg (fun x => x.testBit i) h
      simp only [Nat.testBit_mod_two_pow] at hcong
      simpa [hik] using hcong
    rw [hbit]
  · simp [hik]

lemma packStep_mod_congr (k h h' : Nat) (b : Bool) (hk : k + 1 ≤ 64)
    (hcong : h % 2 ^ k = h' % 2 ^ k) :
    packStep h b % 2 ^ (k + 1) = packStep h' b % 2 ^ (k + 1) := by
  unfold packStep
  rw [Nat.mod_mod_of_dvd _ (pow_dvd_pow 2 hk), Nat.mod_mod_of_dvd _ (pow_dvd_pow 2 hk)]
  rw [Nat.shiftLeft_eq, Nat.shiftLeft_eq, pow_one, pow_succ]
  rw [Nat.mul_mod_mul_right, Nat.mul_mod_mul_right]
  congr 1
  cases b
  · exact hcong
  · exact lor_one_mod_congr k h h' hcong

/-- The dHash accumulator chain is insensitive to anything in the initial
accumulator below bit `64 - n` after `n` more steps: each step doubles the
word modulo `2 ^ 64`, so low-order differences are shifted out. -/
lemma foldl_packStep_congr :
    ∀ (bs : List Bool) (h h' : Nat), bs.length ≤ 64 → h < 2 ^ 64 → h' < 2 ^ 64 →
      h % 2 ^ (64 - bs.length) = h' % 2 ^ (64 - bs.length) →
      bs.foldl packStep h = bs.foldl packStep h' := by
  intro bs
  induction bs with
  | nil =>
      intro h h' _ hlt hlt' hcong
      simp only [List.length_nil, Nat.sub_zero] at hcong
      rw [Nat.mod_eq_of_lt hlt, Nat.mod_eq_of_lt hlt'] at hcong
      simpa using hcong
  | cons b bs ih =>
      intro h h' hlen hlt hlt' hcong
      simp only [List.foldl_cons]
      have hlen' : bs.length + 1 ≤ 64 := by simpa using hlen
      apply ih (packStep h b) (packStep h' b) (by omega) (packStep_lt h b)
        (packStep_lt h' b)
      have heq : 64 - bs.length = (64 - (bs.length + 1)) + 1 := by omega
      rw [heq]
      exact packStep_mod_congr _ h h' b (by omega)
        (by simpa using hcong)

lemma dhashPairs_bounds : ∀ p ∈ dhashPairs, p.1 < 8 ∧ p.2 < 8 := by decide

lemma dhashPairs_nodup : dhashPairs.Nodup := by decide

/-- C10: two implicit consequences of set-then-shift packing. Part 1: for
every grayscale matrix the value `DHash` returns is even — bit 0 is never
set, because every set bit is immediately shifted left. Part 2: the
comparison bit of row 0, column pair 0 has no effect on the result — two
matrices whose comparison bits agree everywhere except at `(0, 0)` hash
identically, because the first bit is shifted out of the 64-bit word by
the remaining 63 iterations. -/
theorem dhash_even_and_first_bit_irrelevant :
    (∀ gray : Nat → Nat → Nat, DHash gray % 2 = 0) ∧
    (∀ gray gray' : Nat → Nat → Nat,
      (∀ i, i < 8 → ∀ j, j < 8 → ¬(i = 0 ∧ j = 0) → cmpBit gray i j = cmpBit gray' i j) →
      DHash gray = DHash gray') := by
  constructor
  · intro gray
    rw [DHash_eq_foldl_bits]
    have hcons : dhashBits gray
        = cmpBit gray 0 0 :: dhashPairs.tail.map (fun p => cmpBit gray p.1 p.2) := rfl
    rw [hcons]
    exact foldl_packStep_even _ _ 0
  · intro gray gray' hagree
    rw [DHash_eq_foldl_bits, DHash_eq_foldl_bits]
    have hcons : ∀ g : Nat → Nat → Nat, dhashBits g
        = cmpBit g 0 0 :: dhashPairs.tail.map (fun p => cmpBit g p.1 p.2) :=
      fun g => rfl
    rw [hcons gray, hcons gray']
    simp only [List.foldl_cons]
    have htail : dhashPairs.tail.map (fun p => cmpBit gray p.1 p.2)
        = dhashPairs.tail.map (fun p => cmpBit gray' p.1 p.2) := by
      apply List.map_congr_left
      intro p hp
      have hmem : p ∈ dhashPairs := List.mem_of_mem_tail hp
      have hb := dhashPairs_bounds p hmem
      have hne : ¬(p.1 = 0 ∧ p.2 = 0) := by
        intro hc
        have hp00 : p = (0, 0) := by
          obtain ⟨h1, h2⟩ := hc
          obtain ⟨p1, p2⟩ := p
          simp only at h1 h2
          rw [h1, h2]
        rw [hp00] at hp
        have hhead : dhashPairs = (0, 0) :: dhashPairs.tail := rfl
        have hnd := dhashPairs_nodup
        rw [hhead] at hnd
        exact (List.nodup_cons.mp hnd).1 hp
      exact hagree p.1 hb.1 p.2 hb.2 hne
    rw [htail]
    apply foldl_packStep_congr
    · have : (dhashPairs.tail.map
          (fun p => cmpBit gray' p.1 p.2)).length = 63 := rfl
      omega
    · exact packStep_lt 0 _
    · exact packStep_lt 0 _
    · have hlen : (dhashPairs.tail.map
          (fun p => cmpBit gray' p.1 p.2)).length = 63 := rfl
      rw [hlen]
      norm_num [packStep_even]

/-- Witness for `dhash_even_and_first_bit_irrelevant`: the all-black
matrix and a matrix that differs from it only in the `(0, 0)` comparison
(its pixel at `x = 0, y = 0` is brighter) produce the same hash, and the
all-black hash is even. -/
theorem dhash_even_and_first_bit_irrelevant_witness :
    DHash (fun _ _ => 0) % 2 = 0 ∧
    DHash (fun _ _ => 0)
      = DHash (fun x y => if x = 0 ∧ y = 0 then 1 else 0) := by
  constructor
  · exact dhash_even_and_first_bit_irrelevant.1 (fun _ _ => 0)
  · exact dhash_even_and_first_bit_irrelevant.2 (fun _ _ => 0)
      (fun x y => if x = 0 ∧ y = 0 then 1 else 0) (by decide)

end Render
